import Mathlib

/-!
Shallow embedding of the conversation-history core of the telegram-bot
repository (files `gemini_client.py`, `config.py`, `terminal_chat.py`,
`bot.py`), together with theorems settling the spec claims.

Python dictionaries are modelled as insertion-ordered association lists,
Python lists as Lean lists, Python strings as Lean `String`, and the
remote Gemini call as an explicit `Except`-valued function parameter.
-/

namespace GBot

/-- Turn of a conversation, `{'role': role, 'content': content}` as built in
`gemini_client.py`, lines 20-23. The role is the Python string tag
(`'user'` or `'model'`). -/
structure Turn where
  role : String
  content : String
deriving DecidableEq, Repr

/-- Configuration constant `MAX_MESSAGE_LENGTH = 4096` from `config.py` line 15. -/
def MAX_MESSAGE_LENGTH : Nat := 4096

/-- Configuration constant `MAX_HISTORY_LENGTH = 10` from `config.py` line 16. -/
def MAX_HISTORY_LENGTH : Nat := 10

/-- The `self.conversations : Dict[int, List[Dict]]` map of `GeminiClient`
(`gemini_client.py` line 13), modelled as an insertion-ordered association
list from user id to buffer. -/
abbrev Store : Type := List (Nat × List Turn)

/-- Membership test `user_id in self.conversations`. -/
def hasUser (st : Store) (uid : Nat) : Bool :=
  st.any (fun p => p.1 == uid)

/-- Read `self.conversations.get(user_id, [])`: the buffer of `uid`, or the
empty list when the user is absent. -/
def getBuf (st : Store) (uid : Nat) : List Turn :=
  match st.find? (fun p => p.1 == uid) with
  | some p => p.2
  | none => []

/-- Assignment `self.conversations[user_id] = buf`: replaces the value when
the key is present, otherwise appends a new entry (Python dicts keep
insertion order). -/
def setBuf (st : Store) (uid : Nat) (buf : List Turn) : Store :=
  if hasUser st uid then
    st.map (fun p => if p.1 == uid then (uid, buf) else p)
  else
    st ++ [(uid, buf)]

/-- Method `GeminiClient.add_message_to_history` (`gemini_client.py` lines
15-27): create the buffer lazily, append the turn, and when the length
exceeds `MAX_HISTORY_LENGTH * 2` keep only the last
`MAX_HISTORY_LENGTH * 2` entries (the Python slice `[-20:]`). -/
def add_message_to_history (st : Store) (uid : Nat) (role content : String) : Store :=
  let st1 := if hasUser st uid then st else setBuf st uid []
  let buf := getBuf st1 uid ++ [⟨role, content⟩]
  if buf.length > MAX_HISTORY_LENGTH * 2 then
    setBuf st1 uid (buf.drop (buf.length - MAX_HISTORY_LENGTH * 2))
  else
    setBuf st1 uid buf

/-- Method `GeminiClient.clear_conversation` (`gemini_client.py` lines
29-32): when the user is present the buffer is reset to `[]`; an absent
user leaves the map untouched. -/
def clear_conversation (st : Store) (uid : Nat) : Store :=
  if hasUser st uid then setBuf st uid [] else st

/-- Typed error of the spec's `ResponseGenerator` contract, carrying the
upstream error text. The Python code has no such class; the type is needed
to state claims about whether `generate_response` signals failures to its
caller as a typed error. -/
structure GenerationError where
  message : String
deriving DecidableEq, Repr

/-- Context construction of `GeminiClient.generate_response`
(`gemini_client.py` lines 40-44): after the user turn is appended, the
history is read back (`self.conversations.get(user_id, [])`) and the chat
is started with `history[:-1] if history else []`. -/
def gen_context (st : Store) (uid : Nat) (msg : String) : List Turn :=
  let history := getBuf (add_message_to_history st uid "user" msg) uid
  if history.isEmpty then [] else history.dropLast

/-- Method `GeminiClient.generate_response` (`gemini_client.py` lines
34-57). The remote Gemini call (`start_chat` + `send_message_async` +
`response.text`) is modelled as the function parameter `remote`, which
receives the context and the new message and either returns the response
text or fails with the upstream error text `str(e)`.

Since a Python coroutine can in principle raise, the embedding's result
type is `Except GenerationError String`; the `try/except` of the source
catches every exception, so every branch of the embedding actually returns
`Except.ok` (on failure, the apology string built on line 55). -/
def generate_response (remote : List Turn → String → Except String String)
    (st : Store) (uid : Nat) (msg : String) : Store × Except GenerationError String :=
  let st1 := add_message_to_history st uid "user" msg
  match remote (gen_context st uid msg) msg with
  | Except.ok text => (add_message_to_history st1 uid "model" text, Except.ok text)
  | Except.error e => (st1, Except.ok ("Sorry, I encountered an error: " ++ e))

/-- Truncation of one displayed message in
`GeminiClient.get_conversation_summary` (`gemini_client.py` line 69):
`msg['content'][:50] + "..." if len(msg['content']) > 50 else msg['content']`. -/
def format_content (c : String) : String :=
  if c.length > 50 then c.take 50 ++ "..." else c

/-- One line of the summary loop body (`gemini_client.py` lines 68-70):
`f"{i}. {role}: {content}\n"` with `role = "You" if msg['role'] == 'user'
else "Bot"`. -/
def summary_line (i : Nat) (t : Turn) : String :=
  toString i ++ ". " ++ (if t.role = "user" then "You" else "Bot") ++ ": " ++
    format_content t.content ++ "\n"

/-- Method `GeminiClient.get_conversation_summary` (`gemini_client.py`
lines 59-72): fixed message for an absent or empty buffer, otherwise a
header with the total count followed by one line per entry of
`messages[-5:]`, numbered from 1 (`enumerate(messages[-5:], 1)`). -/
def get_conversation_summary (st : Store) (uid : Nat) : String :=
  if !hasUser st uid || (getBuf st uid).isEmpty then
    "No conversation history."
  else
    let messages := getBuf st uid
    let header := "Conversation has " ++ toString messages.length ++ " messages:\n"
    ((messages.drop (messages.length - 5)).foldl
      (fun acc t => (acc.1 ++ summary_line acc.2 t, acc.2 + 1)) (header, 1)).1

/-- Chunk list built in `handle_message` (`bot.py` line 147):
`[response[i:i+config.MAX_MESSAGE_LENGTH] for i in range(0, len(response),
config.MAX_MESSAGE_LENGTH)]`, over the response's character sequence.
`range(0, n, M)` has `(n + M - 1) / M` elements `0, M, 2M, ...`. -/
def split_chunks (resp : List Char) : List (List Char) :=
  (List.range' 0 ((resp.length + MAX_MESSAGE_LENGTH - 1) / MAX_MESSAGE_LENGTH)
      MAX_MESSAGE_LENGTH).map
    (fun i => (resp.drop i).take MAX_MESSAGE_LENGTH)

/-- Function `generate_response` of `terminal_chat.py` (lines 35-55): the
single process-wide `conversation_history` list is passed explicitly. The
user turn is appended; then, if the length exceeds 20, exactly one oldest
entry is removed (`conversation_history.pop(0)`); the remote call receives
`conversation_history[:-1]`; on success the model turn is appended with no
further truncation, on failure the apology string is returned. -/
def tc_generate_response (remote : List Turn → String → Except String String)
    (hist : List Turn) (msg : String) : List Turn × String :=
  let h1 := hist ++ [⟨"user", msg⟩]
  let h2 := if h1.length > 20 then h1.drop 1 else h1
  match remote h2.dropLast msg with
  | Except.ok text => (h2 ++ [⟨"model", text⟩], text)
  | Except.error e => (h2, "Sorry, I encountered an error: " ++ e)

/-- State of `terminal_chat.conversation_history` after `n` successful
`generate_response` calls starting from the empty history, with message
`"m"` and remote reply `"r"` each time. -/
def tc_run (n : Nat) : List Turn :=
  (List.range n).foldl
    (fun h _ => (tc_generate_response (fun _ _ => Except.ok "r") h "m").1) []

/-- Store mutations of `GeminiClient` reachable from the public surface:
one `add_message_to_history` call or one `clear_conversation` call. -/
inductive StoreOp where
  | addMsg (role content : String)
  | clearAll
deriving DecidableEq, Repr

/-- Application of one store mutation on behalf of one user. -/
def apply_op (st : Store) (uid : Nat) : StoreOp → Store
  | StoreOp.addMsg role content => add_message_to_history st uid role content
  | StoreOp.clearAll => clear_conversation st uid

/-- Application of an interleaved sequence of store mutations, each tagged
with the user performing it. -/
def run_ops (st : Store) (ops : List (Nat × StoreOp)) : Store :=
  ops.foldl (fun s p => apply_op s p.1 p.2) st

/-! Section: Basic lemmas about the store operations -/

theorem find?_none_of_not_hasUser (st : Store) (uid : Nat) (h : hasUser st uid = false) :
    st.find? (fun p => p.1 == uid) = none := by
  rw [List.find?_eq_none]
  intro p hp
  have := List.any_eq_false.mp h p hp
  simpa using this

theorem getBuf_of_not_hasUser (st : Store) (uid : Nat) (h : hasUser st uid = false) :
    getBuf st uid = [] := by
  unfold getBuf
  rw [find?_none_of_not_hasUser st uid h]

theorem replace_pred_same (uid : Nat) (buf : List Turn) :
    ((fun p : Nat × List Turn => p.1 == uid) ∘
      (fun p : Nat × List Turn => if p.1 == uid then (uid, buf) else p)) =
    (fun p : Nat × List Turn => p.1 == uid) := by
  funext p
  by_cases hp : p.1 = uid <;> simp [hp]

theorem replace_pred_ne (uid v : Nat) (buf : List Turn) (h : v ≠ uid) :
    ((fun p : Nat × List Turn => p.1 == v) ∘
      (fun p : Nat × List Turn => if p.1 == uid then (uid, buf) else p)) =
    (fun p : Nat × List Turn => p.1 == v) := by
  funext p
  by_cases hp : p.1 = uid
  · simp [hp, Ne.symm h]
  · simp [hp]

theorem getBuf_setBuf_same (st : Store) (uid : Nat) (buf : List Turn) :
    getBuf (setBuf st uid buf) uid = buf := by
  unfold setBuf
  by_cases h : hasUser st uid
  · simp only [h, if_true]
    unfold getBuf
    rw [List.find?_map, replace_pred_same]
    have hsome : (st.find? (fun p => p.1 == uid)).isSome := by
      rw [List.find?_isSome]
      rcases List.any_eq_true.mp h with ⟨p, hp, hpe⟩
      exact ⟨p, hp, hpe⟩
    rcases Option.isSome_iff_exists.mp hsome with ⟨p, hp⟩
    have hpe : (p.1 == uid) = true := List.find?_some (p := fun q : Nat × List Turn => q.1 == uid) hp
    have hpu : p.1 = uid := by simpa using hpe
    rw [hp]
    simp [hpu]
  · simp only [h, if_false, Bool.false_eq_true]
    unfold getBuf
    rw [List.find?_append]
    have h' : hasUser st uid = false := by simpa using h
    simp [find?_none_of_not_hasUser st uid h', List.find?]

theorem getBuf_setBuf_ne (st : Store) (uid v : Nat) (buf : List Turn) (h : v ≠ uid) :
    getBuf (setBuf st uid buf) v = getBuf st v := by
  unfold setBuf
  by_cases hu : hasUser st uid
  · simp only [hu, if_true]
    unfold getBuf
    rw [List.find?_map, replace_pred_ne uid v buf h]
    cases hf : st.find? (fun p => p.1 == v) with
    | none => simp
    | some p =>
      have hpe : (p.1 == v) = true := List.find?_some (p := fun q : Nat × List Turn => q.1 == v) hf
      have hpu : (p.1 = uid) = False := by
        have hpv : p.1 = v := by simpa using hpe
        simp [hpv, h]
      simp [hpu]
  · simp only [hu, if_false, Bool.false_eq_true]
    unfold getBuf
    rw [List.find?_append]
    cases hf : st.find? (fun p => p.1 == v) with
    | none =>
      have huv : (uid == v) = false := by
        simpa using Ne.symm h
      simp [hf, List.find?, huv]
    | some p => simp [hf]

theorem hasUser_setBuf_same (st : Store) (uid : Nat) (buf : List Turn) :
    hasUser (setBuf st uid buf) uid = true := by
  unfold setBuf
  by_cases h : hasUser st uid
  · simp only [h, if_true]
    unfold hasUser at h ⊢
    rcases List.any_eq_true.mp h with ⟨p, hp, hpe⟩
    apply List.any_eq_true.mpr
    refine ⟨if p.1 == uid then (uid, buf) else p, List.mem_map_of_mem _ hp, ?_⟩
    simp [hpe]
  · simp only [h, if_false, Bool.false_eq_true]
    unfold hasUser
    apply List.any_eq_true.mpr
    exact ⟨(uid, buf), by simp, by simp⟩

theorem hasUser_add_same (st : Store) (uid : Nat) (role content : String) :
    hasUser (add_message_to_history st uid role content) uid = true := by
  unfold add_message_to_history
  by_cases h : hasUser st uid
  · simp only [h, if_true]
    split <;> exact hasUser_setBuf_same _ _ _
  · simp only [h, if_false, Bool.false_eq_true]
    split <;> exact hasUser_setBuf_same _ _ _

/-- Effect of one `add_message_to_history` call on the caller's own buffer:
the new turn is appended and the result is the suffix of the last
`MAX_HISTORY_LENGTH * 2` entries (a `drop` of zero entries when the cap is
not exceeded). -/
theorem getBuf_add_same (st : Store) (uid : Nat) (role content : String) :
    getBuf (add_message_to_history st uid role content) uid =
      (getBuf st uid ++ [Turn.mk role content]).drop
        ((getBuf st uid ++ [Turn.mk role content]).length - MAX_HISTORY_LENGTH * 2) := by
  unfold add_message_to_history
  by_cases h : hasUser st uid
  · simp only [h, if_true]
    by_cases hlen : (getBuf st uid ++ [Turn.mk role content]).length > MAX_HISTORY_LENGTH * 2
    · simp only [hlen, if_true, gt_iff_lt]
      exact getBuf_setBuf_same _ _ _
    · rw [if_neg (by exact hlen)]
      rw [getBuf_setBuf_same]
      have hz : (getBuf st uid ++ [Turn.mk role content]).length - MAX_HISTORY_LENGTH * 2 = 0 := by
        omega
      rw [hz, List.drop_zero]
  · have h' : hasUser st uid = false := by simpa using h
    simp only [h, if_false, Bool.false_eq_true]
    rw [getBuf_of_not_hasUser st uid h']
    have hget : getBuf (setBuf st uid []) uid = [] := getBuf_setBuf_same _ _ _
    rw [hget]
    have hlen : (([] : List Turn) ++ [Turn.mk role content]).length ≤ MAX_HISTORY_LENGTH * 2 := by
      simp [MAX_HISTORY_LENGTH]
    rw [if_neg (by simp [MAX_HISTORY_LENGTH])]
    rw [getBuf_setBuf_same]
    simp [MAX_HISTORY_LENGTH]

theorem getBuf_add_ne (st : Store) (uid v : Nat) (role content : String) (h : v ≠ uid) :
    getBuf (add_message_to_history st uid role content) v = getBuf st v := by
  unfold add_message_to_history
  by_cases hu : hasUser st uid
  · simp only [hu, if_true]
    split <;> exact getBuf_setBuf_ne _ _ _ _ h
  · simp only [hu, if_false, Bool.false_eq_true]
    split <;>
      rw [getBuf_setBuf_ne _ _ _ _ h, getBuf_setBuf_ne _ _ _ _ h]

theorem getBuf_clear_same (st : Store) (uid : Nat) :
    getBuf (clear_conversation st uid) uid = [] := by
  unfold clear_conversation
  by_cases h : hasUser st uid
  · simp only [h, if_true]
    exact getBuf_setBuf_same _ _ _
  · have h' : hasUser st uid = false := by simpa using h
    simp only [h, if_false, Bool.false_eq_true]
    exact getBuf_of_not_hasUser st uid h'

theorem getBuf_clear_ne (st : Store) (uid v : Nat) (h : v ≠ uid) :
    getBuf (clear_conversation st uid) v = getBuf st v := by
  unfold clear_conversation
  by_cases hu : hasUser st uid
  · simp only [hu, if_true]
    exact getBuf_setBuf_ne _ _ _ _ h
  · simp [hu]

/-! Section: The retention cap as a suffix operation -/

/-- Re-trimming after appending more entries agrees with trimming once at
the end: taking the last `n` entries of `(last n of l) ++ r` is the same
as taking the last `n` entries of `l ++ r`. -/
theorem drop_cap_append {α : Type} (n : Nat) (l r : List α) :
    (l.drop (l.length - n) ++ r).drop ((l.drop (l.length - n) ++ r).length - n) =
    (l ++ r).drop ((l ++ r).length - n) := by
  by_cases hL : l.length ≤ n
  · rw [Nat.sub_eq_zero_of_le hL, List.drop_zero]
  · have hlen : (l.drop (l.length - n)).length = n := by
      rw [List.length_drop]
      omega
    rw [List.length_append, List.length_append, hlen]
    by_cases hr : r.length ≤ n
    · have h1 : n + r.length - n = r.length := by omega
      have h2 : r.length ≤ (l.drop (l.length - n)).length := by omega
      rw [h1, List.drop_append_of_le_length h2, List.drop_drop]
      have h3 : l.length + r.length - n ≤ l.length := by omega
      rw [List.drop_append_of_le_length h3]
      congr 2
      omega
    · have h1 : n + r.length - n = r.length := by omega
      rw [h1, List.drop_append_eq_append_drop, List.drop_append_eq_append_drop]
      have e1 : (l.drop (l.length - n)).drop r.length = ([] : List α) :=
        List.drop_eq_nil_of_le (by omega)
      have e2 : l.drop (l.length + r.length - n) = ([] : List α) :=
        List.drop_eq_nil_of_le (by omega)
      rw [e1, e2, List.nil_append, List.nil_append, hlen]
      congr 1
      omega

/-- Buffer contents after any sequence of appends for one user: provided
the starting buffer is within the cap, the buffer is always the suffix of
the last `MAX_HISTORY_LENGTH * 2` entries of everything ever appended. -/
theorem fold_add_getBuf (uid : Nat) (ts : List Turn) (st : Store)
    (hst : (getBuf st uid).length ≤ MAX_HISTORY_LENGTH * 2) :
    getBuf (ts.foldl (fun s t => add_message_to_history s uid t.role t.content) st) uid =
      (getBuf st uid ++ ts).drop ((getBuf st uid ++ ts).length - MAX_HISTORY_LENGTH * 2) := by
  induction ts generalizing st with
  | nil =>
    simp only [List.foldl_nil, List.append_nil]
    have hz : (getBuf st uid).length - MAX_HISTORY_LENGTH * 2 = 0 := by omega
    rw [hz, List.drop_zero]
  | cons t ts ih =>
    simp only [List.foldl_cons]
    have hstep : getBuf (add_message_to_history st uid t.role t.content) uid =
        (getBuf st uid ++ [t]).drop
          ((getBuf st uid ++ [t]).length - MAX_HISTORY_LENGTH * 2) := by
      have := getBuf_add_same st uid t.role t.content
      simpa using this
    have hlen : (getBuf (add_message_to_history st uid t.role t.content) uid).length ≤
        MAX_HISTORY_LENGTH * 2 := by
      rw [hstep, List.length_drop]
      omega
    rw [ih _ hlen, hstep, drop_cap_append]
    simp

/-! Section: Helper lemmas for the claim theorems -/

theorem snoc_getBuf_add (st : Store) (uid : Nat) (role content : String) :
    getBuf (add_message_to_history st uid role content) uid =
      (getBuf st uid).drop
          ((getBuf st uid ++ [Turn.mk role content]).length - MAX_HISTORY_LENGTH * 2) ++
        [Turn.mk role content] := by
  rw [getBuf_add_same]
  have hk : (getBuf st uid ++ [Turn.mk role content]).length - MAX_HISTORY_LENGTH * 2 ≤
      (getBuf st uid).length := by
    simp only [List.length_append, List.length_cons, List.length_nil, MAX_HISTORY_LENGTH]
    omega
  rw [List.drop_append_of_le_length hk]

theorem getLast?_getBuf_add (st : Store) (uid : Nat) (role content : String) :
    (getBuf (add_message_to_history st uid role content) uid).getLast? =
      some (Turn.mk role content) := by
  rw [snoc_getBuf_add, List.getLast?_concat]

theorem map_replace_of_not_hasUser (st : Store) (uid : Nat) (buf : List Turn)
    (h : hasUser st uid = false) :
    st.map (fun p => if p.1 == uid then (uid, buf) else p) = st := by
  induction st with
  | nil => rfl
  | cons p t ih =>
    have hp : (p.1 == uid) = false := by
      have := List.any_eq_false.mp h p (by simp)
      simpa using this
    have ht : hasUser t uid = false := by
      unfold hasUser at h ⊢
      simp only [List.any_cons, Bool.or_eq_false_iff] at h
      exact h.2
    simp only [List.map_cons, hp, Bool.false_eq_true, if_false, ih ht]

theorem setBuf_setBuf_same (st : Store) (uid : Nat) (b b' : List Turn) :
    setBuf (setBuf st uid b) uid b' = setBuf st uid b' := by
  have hs : hasUser (setBuf st uid b) uid = true := hasUser_setBuf_same st uid b
  by_cases h : hasUser st uid
  · have h1 : setBuf st uid b = st.map (fun p => if p.1 == uid then (uid, b) else p) := by
      simp [setBuf, h]
    have h2 : setBuf st uid b' = st.map (fun p => if p.1 == uid then (uid, b') else p) := by
      simp [setBuf, h]
    rw [h1] at hs
    rw [h1, h2]
    have h3 : setBuf (st.map (fun p => if p.1 == uid then (uid, b) else p)) uid b' =
        (st.map (fun p => if p.1 == uid then (uid, b) else p)).map
          (fun p => if p.1 == uid then (uid, b') else p) := by
      unfold setBuf
      rw [hs]
      simp
    rw [h3, List.map_map]
    apply List.map_congr_left
    intro p hp
    by_cases hpu : p.1 = uid <;> simp [hpu]
  · have h' : hasUser st uid = false := by simpa using h
    have h1 : setBuf st uid b = st ++ [(uid, b)] := by simp [setBuf, h']
    have h2 : setBuf st uid b' = st ++ [(uid, b')] := by simp [setBuf, h']
    rw [h1] at hs
    rw [h1, h2]
    have h3 : setBuf (st ++ [(uid, b)]) uid b' =
        (st ++ [(uid, b)]).map (fun p => if p.1 == uid then (uid, b') else p) := by
      simp [setBuf, hs]
    rw [h3, List.map_append, map_replace_of_not_hasUser st uid b' h']
    simp

/-! Section: Claim theorems -/

/-- C1: starting from an empty (or absent) buffer, after any sequence of
`add_message_to_history` calls for one user the buffer equals the most
recent `min(total, 2 * MAX_HISTORY_LENGTH)` appended turns in their
original order (oldest dropped first), its length is exactly that minimum
and hence at most `2 * MAX_HISTORY_LENGTH = 20`. Quantifying over all
sequences `ts` covers the state after each call of any longer sequence. -/
theorem claim_c1_history_cap (uid : Nat) (ts : List Turn) (st : Store)
    (h : getBuf st uid = []) :
    getBuf (ts.foldl (fun s t => add_message_to_history s uid t.role t.content) st) uid =
        ts.drop (ts.length - 2 * MAX_HISTORY_LENGTH)
  ∧ (getBuf (ts.foldl (fun s t => add_message_to_history s uid t.role t.content) st) uid).length =
        min ts.length (2 * MAX_HISTORY_LENGTH)
  ∧ (getBuf (ts.foldl (fun s t => add_message_to_history s uid t.role t.content) st) uid).length ≤
        2 * MAX_HISTORY_LENGTH
  ∧ 2 * MAX_HISTORY_LENGTH = 20 := by
  have hb : (getBuf st uid).length ≤ MAX_HISTORY_LENGTH * 2 := by simp [h]
  have hfold := fold_add_getBuf uid ts st hb
  rw [h, List.nil_append] at hfold
  have hmain : getBuf (ts.foldl (fun s t => add_message_to_history s uid t.role t.content) st)
      uid = ts.drop (ts.length - 2 * MAX_HISTORY_LENGTH) := by
    rw [hfold, Nat.mul_comm MAX_HISTORY_LENGTH 2]
  refine ⟨hmain, ?_, ?_, by simp [MAX_HISTORY_LENGTH]⟩
  · rw [hmain, List.length_drop]
    omega
  · rw [hmain, List.length_drop]
    omega

/-- Witness for C1: appending 50 turns (contents `"1"` to `"50"`) for user 1
into the empty store leaves a buffer of length exactly 20 holding turns
31-50 in order. -/
theorem claim_c1_history_cap_witness :
    getBuf (((List.range 50).map (fun i => Turn.mk "user" (toString (i + 1)))).foldl
          (fun s t => add_message_to_history s 1 t.role t.content) ([] : Store)) 1 =
        ((List.range 50).map (fun i => Turn.mk "user" (toString (i + 1)))).drop 30
  ∧ (getBuf (((List.range 50).map (fun i => Turn.mk "user" (toString (i + 1)))).foldl
          (fun s t => add_message_to_history s 1 t.role t.content) ([] : Store)) 1).length =
        20 := by
  have h := claim_c1_history_cap 1
    ((List.range 50).map (fun i => Turn.mk "user" (toString (i + 1)))) [] rfl
  refine ⟨?_, ?_⟩
  · have h1 := h.1
    simpa [MAX_HISTORY_LENGTH] using h1
  · have h2 := h.2.1
    simpa [MAX_HISTORY_LENGTH] using h2

/-- C5: the remote-call context built by `generate_response` is exactly the
user's buffer after the current user turn was appended, minus that
most recently appended turn: appending the current user turn to the
context re-creates the buffer, so the context never contains the turn just
appended. -/
theorem claim_c5_context_excludes_current (st : Store) (uid : Nat) (msg : String) :
    gen_context st uid msg ++ [Turn.mk "user" msg] =
      getBuf (add_message_to_history st uid "user" msg) uid := by
  unfold gen_context
  rw [snoc_getBuf_add]
  simp [List.dropLast_concat]

/-- C2: when the remote call fails with upstream text `e`,
`generate_response` returns normally (no exception reaches the caller)
with exactly the string `"Sorry, I encountered an error: " ++ e`, and the
resulting store is exactly the one after the user turn was appended: the
user's buffer ends with the user turn carrying the given message, and no
model turn was appended after it. -/
theorem claim_c2_error_reply (remote : List Turn → String → Except String String)
    (st : Store) (uid : Nat) (msg e : String)
    (h : remote (gen_context st uid msg) msg = Except.error e) :
    (generate_response remote st uid msg).2 =
        Except.ok ("Sorry, I encountered an error: " ++ e)
  ∧ (generate_response remote st uid msg).1 = add_message_to_history st uid "user" msg
  ∧ (getBuf (generate_response remote st uid msg).1 uid).getLast? =
        some (Turn.mk "user" msg) := by
  unfold generate_response
  rw [h]
  exact ⟨rfl, rfl, getLast?_getBuf_add st uid "user" msg⟩

/-- Witness for C2: a remote that fails with `"boom"` on user 42's message
`"hi"` yields the apology string, the store holds only the user turn, and
the buffer ends with that user turn. -/
theorem claim_c2_error_reply_witness :
    (generate_response (fun _ _ => Except.error "boom") [] 42 "hi").2 =
        Except.ok ("Sorry, I encountered an error: " ++ "boom")
  ∧ (generate_response (fun _ _ => Except.error "boom") [] 42 "hi").1 =
        add_message_to_history [] 42 "user" "hi"
  ∧ (getBuf (generate_response (fun _ _ => Except.error "boom") [] 42 "hi").1 42).getLast? =
        some (Turn.mk "user" "hi") :=
  claim_c2_error_reply (fun _ _ => Except.error "boom") [] 42 "hi" "boom" rfl

/-- C3 counterexample: at the concrete input (empty store, user 42, message
`"hi"`, remote failing with `"boom"`), `generate_response` does not signal
the failure to its caller as a typed `GenerationError`; it returns the
apology string as an ordinary success value. -/
theorem claim_c3_counterexample :
    (generate_response (fun _ _ => Except.error "boom") [] 42 "hi").2 ≠
        Except.error (GenerationError.mk "boom")
  ∧ (generate_response (fun _ _ => Except.error "boom") [] 42 "hi").2 =
        Except.ok "Sorry, I encountered an error: boom" := by
  constructor
  · intro hcontra
    simp [generate_response] at hcontra
  · rfl

/-- C3 amended: whenever the remote call fails, `generate_response` does
not signal a typed error to its caller; it catches the failure and returns
the string `"Sorry, I encountered an error: "` followed by the upstream
error text as an ordinary (success) return value. -/
theorem claim_c3_failure_is_inband (remote : List Turn → String → Except String String)
    (st : Store) (uid : Nat) (msg e : String)
    (h : remote (gen_context st uid msg) msg = Except.error e) :
    (generate_response remote st uid msg).2 =
      Except.ok ("Sorry, I encountered an error: " ++ e) := by
  unfold generate_response
  rw [h]

/-- Witness for the amended C3: the concrete failing remote from the
counterexample indeed produces the in-band apology string. -/
theorem claim_c3_failure_is_inband_witness :
    (generate_response (fun _ _ => Except.error "oops") [] 7 "hello").2 =
      Except.ok ("Sorry, I encountered an error: " ++ "oops") :=
  claim_c3_failure_is_inband (fun _ _ => Except.error "oops") [] 7 "hello" "oops" rfl

/-- C8: `clear_conversation` leaves the user's buffer empty for every prior
store state, it is idempotent, and reading the buffer contents right after
a clear yields the empty sequence. -/
theorem claim_c8_clear_empties_and_idempotent (st : Store) (uid : Nat) :
    getBuf (clear_conversation st uid) uid = []
  ∧ clear_conversation (clear_conversation st uid) uid = clear_conversation st uid := by
  refine ⟨getBuf_clear_same st uid, ?_⟩
  by_cases h : hasUser st uid
  · have h1 : clear_conversation st uid = setBuf st uid [] := by
      simp [clear_conversation, h]
    rw [h1]
    have hs : hasUser (setBuf st uid []) uid = true := hasUser_setBuf_same st uid []
    unfold clear_conversation
    rw [hs, if_pos rfl]
    exact setBuf_setBuf_same st uid [] []
  · have h1 : clear_conversation st uid = st := by
      simp [clear_conversation, h]
    rw [h1, h1]

/-- C10: for a user absent from the conversations map,
`clear_conversation` returns the map unchanged (in particular it creates
no empty buffer entry) and always succeeds, while `add_message_to_history`
creates the buffer lazily: after a first append the user is present and
their buffer holds exactly the appended turn. -/
theorem claim_c10_clear_frame_absent (st : Store) (uid : Nat) (role content : String)
    (h : hasUser st uid = false) :
    clear_conversation st uid = st
  ∧ hasUser (add_message_to_history st uid role content) uid = true
  ∧ getBuf (add_message_to_history st uid role content) uid = [Turn.mk role content] := by
  refine ⟨?_, hasUser_add_same st uid role content, ?_⟩
  · simp [clear_conversation, h]
  · rw [getBuf_add_same, getBuf_of_not_hasUser st uid h]
    simp [MAX_HISTORY_LENGTH]

/-- Witness for C10: user 5 is absent from the empty store; clearing it is
a no-op and a first append creates a one-turn buffer. -/
theorem claim_c10_clear_frame_absent_witness :
    clear_conversation [] 5 = ([] : Store)
  ∧ hasUser (add_message_to_history [] 5 "user" "hi") 5 = true
  ∧ getBuf (add_message_to_history [] 5 "user" "hi") 5 = [Turn.mk "user" "hi"] :=
  claim_c10_clear_frame_absent [] 5 "user" "hi" rfl

/-! Section: User isolation (C9) -/

theorem getBuf_apply_op_ne (st : Store) (uid v : Nat) (op : StoreOp) (h : v ≠ uid) :
    getBuf (apply_op st uid op) v = getBuf st v := by
  cases op with
  | addMsg role content => exact getBuf_add_ne st uid v role content h
  | clearAll => exact getBuf_clear_ne st uid v h

theorem getBuf_apply_op_congr (st st' : Store) (b : Nat) (op : StoreOp)
    (h : getBuf st b = getBuf st' b) :
    getBuf (apply_op st b op) b = getBuf (apply_op st' b op) b := by
  cases op with
  | addMsg role content =>
    show getBuf (add_message_to_history st b role content) b =
      getBuf (add_message_to_history st' b role content) b
    rw [getBuf_add_same, getBuf_add_same, h]
  | clearAll =>
    show getBuf (clear_conversation st b) b = getBuf (clear_conversation st' b) b
    rw [getBuf_clear_same, getBuf_clear_same]

theorem run_ops_congr_of_single_user (b : Nat) (ops : List (Nat × StoreOp)) (st st' : Store)
    (hops : ∀ p ∈ ops, p.1 = b) (h : getBuf st b = getBuf st' b) :
    getBuf (run_ops st ops) b = getBuf (run_ops st' ops) b := by
  induction ops generalizing st st' with
  | nil => simpa [run_ops] using h
  | cons p rest ih =>
    have hb : p.1 = b := hops p (List.mem_cons_self p rest)
    simp only [run_ops, List.foldl_cons, hb]
    exact ih (apply_op st b p.2) (apply_op st' b p.2)
      (fun q hq => hops q (List.mem_cons_of_mem p hq))
      (getBuf_apply_op_congr st st' b p.2 h)

theorem getBuf_run_ops_filter_b (b : Nat) (ops : List (Nat × StoreOp)) (st : Store) :
    getBuf (run_ops st ops) b =
      getBuf (run_ops st (ops.filter (fun p => p.1 == b))) b := by
  induction ops generalizing st with
  | nil => rfl
  | cons p rest ih =>
    by_cases hb : p.1 = b
    · have hbb : (p.1 == b) = true := by simpa using hb
      have hfil : (p :: rest).filter (fun q => q.1 == b) =
          p :: rest.filter (fun q => q.1 == b) := by
        simp [List.filter_cons, hbb]
      rw [hfil]
      simp only [run_ops, List.foldl_cons]
      exact ih (apply_op st p.1 p.2)
    · have hbb : (p.1 == b) = false := by simpa using hb
      have hfil : (p :: rest).filter (fun q => q.1 == b) =
          rest.filter (fun q => q.1 == b) := by
        simp [List.filter_cons, hbb]
      rw [hfil]
      simp only [run_ops, List.foldl_cons]
      have hrw := ih (apply_op st p.1 p.2)
      simp only [run_ops] at hrw
      rw [hrw]
      apply run_ops_congr_of_single_user b _ _ _
        (fun q hq => by simpa using (List.mem_filter.mp hq).2)
      exact getBuf_apply_op_ne st p.1 b p.2 (fun he => hb he.symm)

/-- C9: operations performed on behalf of user `a` never disturb user `b`'s
buffer: a single `add_message_to_history` or `clear_conversation` call for
`a` leaves `b`'s buffer literally unchanged, and dropping all of `a`'s
calls from an arbitrary interleaved call sequence does not change `b`'s
buffer either. -/
theorem claim_c9_cross_user_isolation (a b : Nat) (st : Store) (op : StoreOp)
    (ops : List (Nat × StoreOp)) (h : a ≠ b) :
    getBuf (apply_op st a op) b = getBuf st b
  ∧ getBuf (run_ops st ops) b =
      getBuf (run_ops st (ops.filter (fun p => !(p.1 == a)))) b := by
  refine ⟨getBuf_apply_op_ne st a b op (Ne.symm h), ?_⟩
  rw [getBuf_run_ops_filter_b b ops st,
    getBuf_run_ops_filter_b b (ops.filter (fun p => !(p.1 == a))) st,
    List.filter_filter]
  have hpred : (fun q : Nat × StoreOp => q.1 == b && !(q.1 == a)) =
      (fun q : Nat × StoreOp => q.1 == b) := by
    funext q
    by_cases hq : q.1 = b
    · simp [hq, Ne.symm h]
    · simp [hq]
  rw [hpred]

/-- Witness for C9: user 1 appends and clears around user 2's append; user
2's buffer is untouched by the single call and by dropping user 1's calls
from the sequence. -/
theorem claim_c9_cross_user_isolation_witness :
    getBuf (apply_op [(2, [Turn.mk "user" "y"])] 1 (StoreOp.addMsg "user" "x")) 2 =
        getBuf [(2, [Turn.mk "user" "y"])] 2
  ∧ getBuf (run_ops [(2, [Turn.mk "user" "y"])]
        [(1, StoreOp.addMsg "user" "x"), (2, StoreOp.addMsg "model" "z"),
         (1, StoreOp.clearAll)]) 2 =
      getBuf (run_ops [(2, [Turn.mk "user" "y"])]
        (([(1, StoreOp.addMsg "user" "x"), (2, StoreOp.addMsg "model" "z"),
           (1, StoreOp.clearAll)]).filter (fun p => !(p.1 == 1)))) 2 :=
  claim_c9_cross_user_isolation 1 2 [(2, [Turn.mk "user" "y"])]
    (StoreOp.addMsg "user" "x")
    [(1, StoreOp.addMsg "user" "x"), (2, StoreOp.addMsg "model" "z"),
     (1, StoreOp.clearAll)] (by decide)

/-! Section: Summary formatting (C6) -/

theorem string_foldl_append (l : List String) (a : String) :
    l.foldl (fun r s => r ++ s) a = a ++ l.foldl (fun r s => r ++ s) "" := by
  induction l generalizing a with
  | nil => simp
  | cons s rest ih =>
    simp only [List.foldl_cons]
    rw [ih (a ++ s), ih ("" ++ s), String.empty_append, String.append_assoc]

theorem string_join_cons (s : String) (l : List String) :
    String.join (s :: l) = s ++ String.join l := by
  show (s :: l).foldl (fun r s => r ++ s) "" = s ++ l.foldl (fun r s => r ++ s) ""
  simp only [List.foldl_cons, String.empty_append]
  exact string_foldl_append l s

theorem summary_foldl_eq (l : List Turn) (acc : String) (i : Nat) :
    (l.foldl (fun a t => (a.1 ++ summary_line a.2 t, a.2 + 1)) (acc, i)).1 =
      acc ++ String.join ((l.enumFrom i).map (fun p => summary_line p.1 p.2)) := by
  induction l generalizing acc i with
  | nil => simp [String.join]
  | cons t rest ih =>
    simp only [List.foldl_cons, List.enumFrom_cons, List.map_cons]
    rw [ih, string_join_cons, String.append_assoc]

/-- C6: the conversation summary is the fixed no-history string exactly
when the user's buffer is empty or absent; for a nonempty buffer of `N`
turns it is the header reporting `N` followed by one numbered line (from
1) for each of the last `min(N, 5)` entries in order, where a content of
at most 50 characters is shown unchanged and a longer one is cut to its
first 50 characters plus the `"..."` marker. -/
theorem claim_c6_summary_shape (st : Store) (uid : Nat) :
    (getBuf st uid = [] → get_conversation_summary st uid = "No conversation history.")
  ∧ (getBuf st uid ≠ [] →
      get_conversation_summary st uid =
          "Conversation has " ++ toString (getBuf st uid).length ++ " messages:\n" ++
            String.join
              ((((getBuf st uid).drop ((getBuf st uid).length - 5)).enumFrom 1).map
                (fun p => summary_line p.1 p.2))
        ∧ ((getBuf st uid).drop ((getBuf st uid).length - 5)).length =
            min (getBuf st uid).length 5
        ∧ ∀ t ∈ getBuf st uid,
            (t.content.length ≤ 50 → format_content t.content = t.content)
          ∧ (t.content.length > 50 →
              format_content t.content = t.content.take 50 ++ "...")) := by
  constructor
  · intro hbuf
    simp [get_conversation_summary, hbuf]
  · intro hbuf
    have hu : hasUser st uid = true := by
      by_contra hcon
      exact hbuf (getBuf_of_not_hasUser st uid (by simpa using hcon))
    have hne : (getBuf st uid).isEmpty = false := by
      simpa [List.isEmpty_iff] using hbuf
    refine ⟨?_, ?_, ?_⟩
    · unfold get_conversation_summary
      rw [hu, hne]
      simp only [Bool.not_true, Bool.false_or, Bool.false_eq_true, if_false]
      rw [summary_foldl_eq]
    · rw [List.length_drop]
      omega
    · intro t _
      constructor
      · intro hle
        simp [format_content, Nat.not_lt.mpr hle]
      · intro hgt
        simp [format_content, hgt]

/-- Witness for C6: the empty store yields the fixed message, and a
two-turn buffer for user 7 (one content longer than 50 characters) yields
the header plus two numbered lines. -/
theorem claim_c6_summary_shape_witness :
    get_conversation_summary [] 7 = "No conversation history."
  ∧ get_conversation_summary
        [(7, [Turn.mk "user" "hi",
              Turn.mk "model" (String.mk (List.replicate 60 'x'))])] 7 =
      "Conversation has " ++
          toString (getBuf [(7, [Turn.mk "user" "hi",
              Turn.mk "model" (String.mk (List.replicate 60 'x'))])] 7).length ++
          " messages:\n" ++
        String.join
          ((((getBuf [(7, [Turn.mk "user" "hi",
                  Turn.mk "model" (String.mk (List.replicate 60 'x'))])] 7).drop
                ((getBuf [(7, [Turn.mk "user" "hi",
                  Turn.mk "model" (String.mk (List.replicate 60 'x'))])] 7).length -
                  5)).enumFrom 1).map
            (fun p => summary_line p.1 p.2)) := by
  constructor
  · exact (claim_c6_summary_shape [] 7).1 rfl
  · exact (((claim_c6_summary_shape
      [(7, [Turn.mk "user" "hi",
            Turn.mk "model" (String.mk (List.replicate 60 'x'))])] 7).2 (by decide)).1)

/-! Section: Chunking of long responses (C7) -/

theorem map_range'_shift {β : Type} (f : Nat → β) (s k step : Nat) :
    (List.range' (s + step) k step).map f =
      (List.range' s k step).map (fun i => f (i + step)) := by
  induction k generalizing s with
  | zero => simp
  | succ k ih =>
    rw [List.range'_succ, List.range'_succ]
    simp only [List.map_cons]
    rw [ih (s + step)]

theorem split_chunks_nil : split_chunks [] = [] := by
  simp [split_chunks, MAX_MESSAGE_LENGTH]

theorem split_chunks_small (resp : List Char) (h0 : resp ≠ [])
    (h : resp.length ≤ MAX_MESSAGE_LENGTH) :
    split_chunks resp = [resp] := by
  unfold split_chunks
  have hpos : 0 < resp.length := List.length_pos.mpr h0
  have h1 : (resp.length + MAX_MESSAGE_LENGTH - 1) / MAX_MESSAGE_LENGTH = 1 := by
    simp only [MAX_MESSAGE_LENGTH] at h ⊢
    omega
  rw [h1, List.range'_one]
  simp [List.take_of_length_le h]

theorem split_chunks_step (resp : List Char) (h : resp.length > MAX_MESSAGE_LENGTH) :
    split_chunks resp =
      resp.take MAX_MESSAGE_LENGTH :: split_chunks (resp.drop MAX_MESSAGE_LENGTH) := by
  have hM : 0 < MAX_MESSAGE_LENGTH := by simp [MAX_MESSAGE_LENGTH]
  unfold split_chunks
  have h1 : resp.length + MAX_MESSAGE_LENGTH - 1 =
      ((resp.drop MAX_MESSAGE_LENGTH).length + MAX_MESSAGE_LENGTH - 1) +
        MAX_MESSAGE_LENGTH := by
    simp only [List.length_drop, MAX_MESSAGE_LENGTH] at h ⊢
    omega
  rw [h1, Nat.add_div_right _ hM, List.range'_succ]
  simp only [List.map_cons, List.drop_zero]
  congr 1
  rw [map_range'_shift]
  apply List.map_congr_left
  intro i _
  rw [List.drop_drop, Nat.add_comm]

/-- Every chunk has at most `MAX_MESSAGE_LENGTH` characters. -/
theorem split_chunks_length_le (resp : List Char) :
    ∀ c ∈ split_chunks resp, c.length ≤ MAX_MESSAGE_LENGTH := by
  suffices hgen : ∀ n (resp : List Char), resp.length = n →
      ∀ c ∈ split_chunks resp, c.length ≤ MAX_MESSAGE_LENGTH from hgen _ resp rfl
  intro n
  induction n using Nat.strong_induction_on with
  | _ n ih =>
    intro resp hn
    by_cases h0 : resp = []
    · subst h0
      rw [split_chunks_nil]
      intro c hc
      simp at hc
    · by_cases hle : resp.length ≤ MAX_MESSAGE_LENGTH
      · rw [split_chunks_small resp h0 hle]
        intro c hc
        rw [List.mem_singleton] at hc
        subst hc
        exact hle
      · rw [split_chunks_step resp (by omega)]
        intro c hc
        rcases List.mem_cons.mp hc with hc | hc
        · subst hc
          exact List.length_take_le _ _
        · subst hn
          refine ih (resp.drop MAX_MESSAGE_LENGTH).length ?_
            (resp.drop MAX_MESSAGE_LENGTH) rfl c hc
          simp only [List.length_drop, MAX_MESSAGE_LENGTH] at hle ⊢
          omega

/-- The chunks concatenate, in order, back to the original response. -/
theorem split_chunks_flatten (resp : List Char) :
    (split_chunks resp).flatten = resp := by
  suffices hgen : ∀ n (resp : List Char), resp.length = n →
      (split_chunks resp).flatten = resp from hgen _ resp rfl
  intro n
  induction n using Nat.strong_induction_on with
  | _ n ih =>
    intro resp hn
    by_cases h0 : resp = []
    · subst h0
      rw [split_chunks_nil]
      rfl
    · by_cases hle : resp.length ≤ MAX_MESSAGE_LENGTH
      · rw [split_chunks_small resp h0 hle]
        simp
      · rw [split_chunks_step resp (by omega)]
        rw [List.flatten_cons]
        subst hn
        rw [ih (resp.drop MAX_MESSAGE_LENGTH).length
          (by simp only [List.length_drop, MAX_MESSAGE_LENGTH] at hle ⊢; omega)
          (resp.drop MAX_MESSAGE_LENGTH) rfl]
        exact List.take_append_drop _ _

/-- C7: for a response longer than `MAX_MESSAGE_LENGTH = 4096` characters,
the chunk list computed in `handle_message` consists of ordered chunks of
at most 4096 characters each whose in-order concatenation is exactly the
original response; `generate_response` itself hands the full, unsplit text
to its caller. -/
theorem claim_c7_chunks_reassemble (resp : List Char) (h : resp.length > MAX_MESSAGE_LENGTH) :
    (∀ c ∈ split_chunks resp, c.length ≤ MAX_MESSAGE_LENGTH)
  ∧ (split_chunks resp).flatten = resp
  ∧ ∀ remote st uid msg text,
      remote (gen_context st uid msg) msg = Except.ok text →
        (generate_response remote st uid msg).2 = Except.ok text := by
  refine ⟨split_chunks_length_le resp, split_chunks_flatten resp, ?_⟩
  intro remote st uid msg text ht
  unfold generate_response
  rw [ht]

/-- Witness for C7: a response of 4097 identical characters exceeds the
limit; its chunks are each within the limit and reassemble to it. -/
theorem claim_c7_chunks_reassemble_witness :
    (List.replicate 4097 'a').length > MAX_MESSAGE_LENGTH ∧
    ((∀ c ∈ split_chunks (List.replicate 4097 'a'), c.length ≤ MAX_MESSAGE_LENGTH)
  ∧ (split_chunks (List.replicate 4097 'a')).flatten = List.replicate 4097 'a') := by
  have h : (List.replicate 4097 'a').length > MAX_MESSAGE_LENGTH := by
    rw [List.length_replicate]
    decide
  have hc := claim_c7_chunks_reassemble (List.replicate 4097 'a') h
  exact ⟨h, hc.1, hc.2.1⟩

/-! Section: The terminal-chat variant fails its cap (C4) -/

set_option maxRecDepth 10000 in
/-- C4 is violated by `terminal_chat.py`: starting from the empty history,
after the model-turn append of the 11th successful call the history
holds 21 entries, exceeding `2 * MAX_HISTORY_LENGTH = 20`, and it keeps
growing (22 after the 12th call): `pop(0)` removes a single entry on the
user-turn append only, and the model-turn append is never followed by any
truncation. -/
theorem claim_c4_terminal_cap_violated :
    (tc_run 11).length = 21
  ∧ (tc_run 12).length = 22
  ∧ ¬ ((tc_run 11).length ≤ 2 * MAX_HISTORY_LENGTH) := by
  refine ⟨?_, ?_, ?_⟩ <;> decide

end GBot
